/-
Verification of the clause cross-reference and highlight-reconstruction
engine of the Automated Compliance Matrix Generator
(src/Code/matrix_generator.py).

The Python source is shallowly embedded: text is `List Char` (Python `str`
is a sequence of code points), identifiers and cell values are `String`,
and the regular-expression word boundary `\b` of the patterns
`r'\b' + re.escape(clause) + r'\b'` is modelled explicitly: `\b` holds at a
position exactly when one side is a word character (`\w`, modelled as
alphanumeric or underscore) and the other is not (the edge of the text
counts as a non-word side).  `re.escape` makes the identifier a literal, so
a match of the pattern at position `i` is: the identifier's characters
occur verbatim at `i`, with a word boundary at `i` and at the end of the
occurrence.
-/
import Mathlib

namespace MatrixGenerator

/-- Python regex `\w` (word character): alphanumeric or underscore. -/
def isWordChar (c : Char) : Bool :=
  c.isAlphanum || c = '_'

/-- Whether the character at position `p` of `t` is a word character;
positions outside the text count as non-word. -/
def wordCharAt (t : List Char) (p : Nat) : Bool :=
  match t.get? p with
  | some c => isWordChar c
  | none => false

/-- Python regex `\b` at position `p` of `t`: exactly one of the character
before `p` and the character at `p` is a word character (the edges of the
text count as non-word). -/
def boundaryAt (t : List Char) (p : Nat) : Bool :=
  (if p = 0 then false else wordCharAt t (p - 1)) != wordCharAt t p

/-- A match of `re.search(r'\b' + re.escape(clause) + r'\b', text)` starting
at position `i`: the clause occurs literally at `i` and both ends of the
occurrence sit on a word boundary. -/
def matchesAt (clause : List Char) (t : List Char) (i : Nat) : Bool :=
  clause.isPrefixOf (t.drop i) && boundaryAt t i && boundaryAt t (i + clause.length)

/-- Success of `re.search(r'\b' + re.escape(clause) + r'\b', text)`: some
start position in the text carries a boundary-delimited occurrence. -/
def foundInText (clause : List Char) (t : List Char) : Bool :=
  (List.range (t.length + 1)).any (fun i => matchesAt clause t i)

/-- The matcher `find_clauses_from_db(text, master_clauses)`: keep the known clauses
whose boundary-delimited pattern occurs in the text, then return them
sorted ascending (Python `sorted` on strings: lexicographic by code
point). -/
def find_clauses_from_db (text : String) (master_clauses : List String) : List String :=
  List.insertionSort (· ≤ ·)
    (master_clauses.filter (fun clause => foundInText clause.data text.data))

/-! ### Word-document paragraph model and `_apply_highlights_to_paragraph`

A `python-docx` paragraph is modelled as its list of runs; a run carries
its text (a list of characters) and whether its font highlight is set to
yellow.  `paragraph.text` is the concatenation of the run texts. -/

/-- One run of a Word paragraph: its text and whether it is highlighted
(`run.font.highlight_color == WD_COLOR_INDEX.YELLOW`). -/
structure Run where
  text : List Char
  highlight : Bool
deriving DecidableEq

/-- A Word paragraph: its ordered list of runs. -/
structure Paragraph where
  runs : List Run
deriving DecidableEq

/-- The property `paragraph.text`: the concatenation of the texts of the runs. -/
def Paragraph.text (p : Paragraph) : List Char :=
  (p.runs.map Run.text).flatten

/-- The list `clauses_in_para`: the sublist of `found_clauses` whose
boundary-delimited pattern occurs in the paragraph text (the list
comprehension at the top of `_apply_highlights_to_paragraph`). -/
def clausesInPara (found_clauses : List String) (t : List Char) : List String :=
  found_clauses.filter (fun c => foundInText c.data t)

/-- The leftmost match of the combined pattern
`r'(\b(?:c1|c2|...)\b)'` in `t` at or after position `i`: the smallest
position `j` carrying a match, paired with the first alternative (in list
order, as Python alternation tries them left to right) matching at `j`.
Boundary context is evaluated against the whole text `t`, as the regex
engine does. -/
def firstMatchFrom (present : List String) (t : List Char) (i : Nat) : Option (Nat × String) :=
  (List.range (t.length + 1 - i)).findSome? (fun d =>
    (present.find? (fun c => matchesAt c.data t (i + d))).map (fun c => (i + d, c)))

/-- One scan of `re.split` with the combined capturing pattern, from
position `i`: pieces of text between matches alternate with the matched
literals, in left-to-right order.  `fuel` bounds the recursion; every
match of a non-empty alternative advances the scan position, so
`t.length + 1` fuel is never exhausted on the inputs the program builds
(clause identifiers are non-empty). -/
def splitFrom (present : List String) (t : List Char) : Nat → Nat → List (List Char)
  | 0, i => [t.drop i]
  | fuel + 1, i =>
    match firstMatchFrom present t i with
    | none => [t.drop i]
    | some (j, c) =>
        (t.drop i).take (j - i) :: c.data :: splitFrom present t fuel (j + c.data.length)

/-- The full split `parts = re.split(pattern, original_text)` with the combined
capturing pattern over the present clauses. -/
def reSplit (present : List String) (t : List Char) : List (List Char) :=
  splitFrom present t (t.length + 1) 0

/-- The reconstructor `_apply_highlights_to_paragraph(paragraph, found_clauses)`: if none of
the found clauses occurs in this paragraph (boundary test), the paragraph
is left untouched; otherwise the paragraph is cleared and re-built run by
run from the split pieces, skipping empty pieces, highlighting a piece
exactly when it is a member (string equality) of `clauses_in_para`. -/
def _apply_highlights_to_paragraph (p : Paragraph) (found_clauses : List String) : Paragraph :=
  let clauses_in_para := clausesInPara found_clauses p.text
  if clauses_in_para.isEmpty then p
  else
    { runs :=
        ((reSplit clauses_in_para p.text).filter (fun part => !part.isEmpty)).map
          (fun part => ⟨part, clauses_in_para.any (fun c => c.data == part)⟩) }

/-! ### Canonical table rows and `generate_compliance_matrix`

A row of the merged database keeps its `Clause` cell (the column the
program matches on, `CLAUSE_COL_NAME = 'Clause'`) and the remaining cells
verbatim. -/

/-- One row of the canonical reference table: the `Clause` cell plus the
other cells, carried verbatim. -/
structure Row where
  clause : String
  rest : List String
deriving DecidableEq

/-- Key order used by `matrix_df.sort_values(by=CLAUSE_COL_NAME)`:
compare rows by their `Clause` cell. -/
def rowLe (a b : Row) : Prop := a.clause ≤ b.clause

instance : DecidableRel rowLe := fun a b => inferInstanceAs (Decidable (a.clause ≤ b.clause))

/-- The row-collection loop of `generate_compliance_matrix`: for each
found clause, in list order, append every master row whose `Clause` cell
equals it, in master order. -/
def matrix_rows (found_clauses : List String) (master_df : List Row) : List Row :=
  found_clauses.flatMap (fun clause => master_df.filter (fun r => r.clause == clause))

/-- The contract of `matrix_df.sort_values(by=CLAUSE_COL_NAME)`: the
result is a permutation of the input rows that is sorted by the `Clause`
key.  The call uses the default sort kind (`quicksort`), which pandas
documents as not stable, so the relative order of rows sharing a `Clause`
key is left unspecified: the relation admits every key-sorted
permutation of the input. -/
def sort_values_spec (input output : List Row) : Prop :=
  output.Perm input ∧ output.Sorted rowLe

/-- The builder `generate_compliance_matrix(found_clauses, master_df)`,
as an input/output relation: `output` is a possible result exactly when
it is one of the key-sorted permutations that `sort_values` may produce
from the collected rows. -/
def generate_compliance_matrix (found_clauses : List String) (master_df : List Row)
    (output : List Row) : Prop :=
  sort_values_spec (matrix_rows found_clauses master_df) output

/-! ### `clean_headers`, the admission filter and `load_databases`

Python's string methods are modelled at the character-list level:
`str.strip()` drops whitespace from both ends, `str.lower()` lowercases
character-wise, `str.replace(a, b)` on single-character arguments maps or
removes characters. -/

/-- Python `str.strip()`: drop whitespace from both ends. -/
def pyStrip (s : List Char) : List Char :=
  ((s.dropWhile Char.isWhitespace).reverse.dropWhile Char.isWhitespace).reverse

/-- Python `str.lower()`: lowercase character-wise. -/
def pyLower (s : List Char) : List Char :=
  s.map Char.toLower

/-- Python `str.replace(a, b)` for single characters `a`, `b`. -/
def replaceChar (a b : Char) (s : List Char) : List Char :=
  s.map (fun c => if c = a then b else c)

/-- Python `str.replace(a, '')` for a single character `a`. -/
def removeChar (a : Char) (s : List Char) : List Char :=
  s.filter (fun c => c ≠ a)

/-- Collapse every maximal run of whitespace to a single space
(`re.sub(r'\s+', ' ', c)`); `prevWS` records whether the previously
emitted character closed a whitespace run. -/
def collapseWS (prevWS : Bool) : List Char → List Char
  | [] => []
  | c :: rest =>
    if c.isWhitespace then
      (if prevWS then [] else [' ']) ++ collapseWS true rest
    else c :: collapseWS false rest

/-- The effect of `clean_headers` on one column name: replace newlines by spaces, drop
asterisks, strip surrounding whitespace, collapse internal whitespace
runs. -/
def clean_header (col : String) : String :=
  String.mk (collapseWS false (pyStrip (removeChar '*' (replaceChar '\n' ' ' col.data))))

/-- The header cleaner `clean_headers(columns)`. -/
def clean_headers (columns : List String) : List String :=
  columns.map clean_header

/-- The row-admission block of `load_databases` applied to one usable
source: strip the `Clause` cell, keep rows whose stripped `Clause` cell
contains a digit (`str.contains(r'\d')`) and is shorter than 30
characters. -/
def admitRows (rows : List Row) : List Row :=
  (((rows.map (fun r => { r with clause := String.mk (pyStrip r.clause.data) })).filter
      (fun r => r.clause.data.any Char.isDigit)).filter
    (fun r => r.clause.length < 30))

/-- One parsed reference source file: its header row and its data rows
(only the `Clause` cell and the remaining cells are modelled). -/
structure Source where
  headers : List String
  rows : List Row
deriving DecidableEq

/-- A source is usable when its cleaned headers contain the `Clause`
column (`CLAUSE_COL_NAME in df.columns` after `clean_headers`). -/
def usable (s : Source) : Bool :=
  (clean_headers s.headers).contains ("Clause")

/-- The merger `load_databases`: per parsed source, if the cleaned headers carry the
`Clause` column, admit its rows (possibly none) into the list of frames;
otherwise skip the source.  If no frame was collected, return `none`
("no database"); otherwise concatenate the frames. -/
def load_databases (sources : List Source) : Option (List Row) :=
  let all_dataframes := (sources.filter usable).map (fun s => admitRows s.rows)
  if all_dataframes.isEmpty then none else some all_dataframes.flatten

/-! ### `apply_color_coding` -/

/-- An openpyxl cell fill: unstyled, or one of the three rubric fills
(`C6EFCE` green, `FFEB9C` yellow, `FFC7CE` red). -/
inductive Fill where
  | unstyled
  | green
  | yellow
  | red
deriving DecidableEq

/-- A spreadsheet cell: its value (a string, or an empty cell) and its
fill. -/
structure Cell where
  value : Option String
  fill : Fill
deriving DecidableEq

/-- The cell key `str(cell.value).strip().lower() if cell.value else ""`: an empty or
missing value is falsy and yields the empty key. -/
def cellKey (v : Option String) : String :=
  match v with
  | none => ""
  | some s => if s = "" then "" else String.mk (pyLower (pyStrip s.data))

/-- The per-cell body of `apply_color_coding`: repaint the fill according
to the rubric, leaving any other cell untouched. -/
def recolorCell (c : Cell) : Cell :=
  let val := cellKey c.value
  if val = "ok" then { c with fill := .green }
  else if val = "c" then { c with fill := .yellow }
  else if val = "remove" then { c with fill := .red }
  else c

/-- The traversal of `apply_color_coding` on a worksheet (a header row followed by data
rows): `iter_rows(min_row=2)` visits every cell of every data row. -/
def apply_color_coding (ws : List (List Cell)) : List (List Cell) :=
  match ws with
  | [] => []
  | header :: rest => header :: rest.map (fun row => row.map recolorCell)

/-! ### The `main` pipeline, restricted to what decides artifact output -/

/-- The known-clause list `master_df[CLAUSE_COL_NAME].unique().tolist()`: the clause values in
first-occurrence order, deduplicated. -/
def uniqueFirst : List String → List String
  | [] => []
  | c :: rest => c :: (uniqueFirst rest).filter (fun x => !(x == c))

/-- The artifact-producing skeleton of `main`: if `load_databases` fails
("no database"), the run exits before processing any document and saves
nothing; otherwise each document text is matched, a document with no found
clauses is skipped, and each remaining document yields its compliance
matrix (the saved spreadsheet's rows, listed here in collection order;
their on-disk order is any outcome of `sort_values_spec`). -/
def main_artifacts (sources : List Source) (docTexts : List String) : List (List Row) :=
  match load_databases sources with
  | none => []
  | some master_df =>
      docTexts.filterMap (fun text =>
        let found_clauses :=
          find_clauses_from_db text (uniqueFirst (master_df.map (fun r => r.clause)))
        if found_clauses.isEmpty then none
        else some (matrix_rows found_clauses master_df))

/-! ### Theorems -/

/-- Membership in the matcher's result, unfolded to the filter. -/
lemma mem_find_clauses_iff (text : String) (master_clauses : List String) (c : String) :
    c ∈ find_clauses_from_db text master_clauses ↔
      c ∈ master_clauses ∧ foundInText c.data text.data = true := by
  rw [find_clauses_from_db, List.mem_insertionSort, List.mem_filter]

/-- C1: if no occurrence of the identifier in the text is delimited by word
boundaries on both sides (every occurrence is a substring of a longer
token), then `find_clauses_from_db` does not include the identifier in its
result, whatever the rest of the known-identifier list is. -/
theorem find_clauses_excludes_embedded (text clause : String) (master_clauses : List String)
    (h : ∀ i, i ≤ text.data.length → clause.data.isPrefixOf (text.data.drop i) = true →
      ¬(boundaryAt text.data i = true ∧
        boundaryAt text.data (i + clause.data.length) = true)) :
    clause ∉ find_clauses_from_db text master_clauses := by
  intro hmem
  obtain ⟨-, hfound⟩ := (mem_find_clauses_iff text master_clauses clause).mp hmem
  rw [foundInText, List.any_eq_true] at hfound
  obtain ⟨i, hi, hmatch⟩ := hfound
  rw [List.mem_range] at hi
  simp only [matchesAt, Bool.and_eq_true] at hmatch
  exact h i (by omega) hmatch.1.1 ⟨hmatch.1.2, hmatch.2⟩

/-- C1 witness: `52.2` occurs in `see 52.212-4 here` only inside the
longer token `52.212-4`, and is not reported. -/
theorem find_clauses_excludes_embedded_witness :
    "52.2" ∉ find_clauses_from_db ("see 52.212-4 here") ["52.2"] :=
  find_clauses_excludes_embedded _ _ _ (by decide)

/-- C9: the identifier `(1)` starts and ends with a non-word character;
it occurs in `see (1) here` as a standalone whitespace-delimited token
(the text contains ` (1) `), yet the matcher does not report it, because
`\b` demands a word character adjacent to the pattern's edge. -/
theorem find_clauses_misses_nonword_edge_identifier :
    "see (1) here".data = "see".data ++ [' '] ++ "(1)".data ++ [' '] ++ "here".data ∧
      find_clauses_from_db ("see (1) here") ["(1)"] = [] := by
  refine ⟨by decide, ?_⟩
  simp [find_clauses_from_db, List.filter]

/-- C10: on a duplicate-free list of known identifiers, the matcher's
result is sorted ascending (lexicographically), has no duplicates, and
contains exactly the known identifiers that occur in the text under the
word-boundary test. -/
theorem find_clauses_from_db_spec (text : String) (master_clauses : List String)
    (h : master_clauses.Nodup) :
    (find_clauses_from_db text master_clauses).Sorted (· ≤ ·) ∧
    (find_clauses_from_db text master_clauses).Nodup ∧
    ∀ c, c ∈ find_clauses_from_db text master_clauses ↔
      c ∈ master_clauses ∧ foundInText c.data text.data = true := by
  refine ⟨List.sorted_insertionSort _ _, ?_, mem_find_clauses_iff text master_clauses⟩
  exact ((List.perm_insertionSort _ _).nodup_iff).mpr (h.filter _)

/-- C10 witness: the spec's end-to-end scenario, with the short identifier
`52.2` also known; `52.219-6` is found even though `(a)` follows it with
no intervening space. -/
theorem find_clauses_from_db_spec_witness :
    (["52.219-6", "52.212-4", "52.2"] : List String).Nodup ∧
      "52.219-6" ∈ find_clauses_from_db ("per clause 52.212-4 and 52.219-6(a)")
        ["52.219-6", "52.212-4", "52.2"] :=
  ⟨by decide,
   ((find_clauses_from_db_spec ("per clause 52.212-4 and 52.219-6(a)")
        ["52.219-6", "52.212-4", "52.2"] (by decide)).2.2 ("52.219-6")).mpr
      ⟨by decide, by decide⟩⟩

/-- Facts carried by a successful leftmost-match search. -/
lemma firstMatchFrom_some {present : List String} {t : List Char} {i j : Nat} {c : String}
    (h : firstMatchFrom present t i = some (j, c)) :
    i ≤ j ∧ matchesAt c.data t j = true ∧ c ∈ present := by
  unfold firstMatchFrom at h
  obtain ⟨d, hd, hf⟩ := List.exists_of_findSome?_eq_some h
  rw [Option.map_eq_some'] at hf
  obtain ⟨c', hfind, heq⟩ := hf
  injection heq with h1 h2
  subst h1; subst h2
  have hm := List.find?_some hfind
  exact ⟨Nat.le_add_right i d, hm, List.mem_of_find?_eq_some hfind⟩

/-- A boundary-delimited match of `c` at `j` means the text from `j`
onward starts with `c` literally. -/
lemma drop_eq_of_matchesAt {c : String} {t : List Char} {j : Nat}
    (h : matchesAt c.data t j = true) :
    t.drop j = c.data ++ t.drop (j + c.data.length) := by
  simp only [matchesAt, Bool.and_eq_true] at h
  obtain ⟨s, hs⟩ := List.isPrefixOf_iff_prefix.mp h.1.1
  have hdrop : t.drop (j + c.data.length) = s := by
    rw [← List.drop_drop, ← hs, List.drop_left]
  rw [hdrop, hs]

/-- The pieces produced by the split concatenate back to the text being
scanned. -/
lemma flatten_splitFrom (present : List String) (t : List Char) :
    ∀ fuel i, (splitFrom present t fuel i).flatten = t.drop i := by
  intro fuel
  induction fuel with
  | zero => intro i; simp [splitFrom]
  | succ fuel ih =>
    intro i
    rw [splitFrom]
    cases hfm : firstMatchFrom present t i with
    | none => simp
    | some jc =>
      obtain ⟨j, c⟩ := jc
      obtain ⟨hij, hmatch, -⟩ := firstMatchFrom_some hfm
      simp only [List.flatten_cons, ih]
      rw [← drop_eq_of_matchesAt hmatch]
      have hjd : t.drop j = (t.drop i).drop (j - i) := by
        rw [List.drop_drop]; congr 1; omega
      rw [hjd, List.take_append_drop]

/-- Dropping the empty pieces does not change the concatenation. -/
lemma flatten_filter_nonempty (l : List (List Char)) :
    (l.filter (fun part => !part.isEmpty)).flatten = l.flatten := by
  induction l with
  | nil => rfl
  | cons x xs ih =>
    by_cases hx : x.isEmpty
    · have hnil : x = [] := List.isEmpty_iff.mp hx
      subst hnil
      simp [List.filter, ih]
    · simp [List.filter_cons, hx, ih]

/-- C2: the ordered concatenation of the runs written back by
`_apply_highlights_to_paragraph` is exactly the original paragraph text:
no content is lost, duplicated or reordered, for every paragraph and
every list of found clauses. -/
theorem apply_highlights_preserves_text (p : Paragraph) (found_clauses : List String) :
    (_apply_highlights_to_paragraph p found_clauses).text = p.text := by
  unfold _apply_highlights_to_paragraph
  by_cases h : (clausesInPara found_clauses p.text).isEmpty
  · simp [h]
  · simp only [h, if_neg, Bool.false_eq_true, not_false_iff]
    show (((List.map _ _).map Run.text).flatten) = p.text
    rw [List.map_map]
    have hmt : (Run.text ∘ fun part =>
        Run.mk part ((clausesInPara found_clauses p.text).any (fun c => c.data == part))) =
          id := by
      funext part; rfl
    rw [hmt, List.map_id, flatten_filter_nonempty, reSplit, flatten_splitFrom]
    rfl

/-- C5: a paragraph in which no member of the match set occurs under the
word-boundary test is returned untouched: the same runs, texts and
formatting, with no clear/rebuild. -/
theorem apply_highlights_noop (p : Paragraph) (found_clauses : List String)
    (h : ∀ c ∈ found_clauses, foundInText c.data p.text = false) :
    _apply_highlights_to_paragraph p found_clauses = p := by
  unfold _apply_highlights_to_paragraph
  have hnil : clausesInPara found_clauses p.text = [] := by
    rw [clausesInPara, List.filter_eq_nil_iff]
    intro c hc
    simp [h c hc]
  simp [hnil]

/-- C5 witness: a paragraph mentioning no known clause passes through
unchanged. -/
theorem apply_highlights_noop_witness :
    _apply_highlights_to_paragraph ⟨[⟨"nothing to see".data, false⟩]⟩ ["52.212-4"] =
      ⟨[⟨"nothing to see".data, false⟩]⟩ :=
  apply_highlights_noop _ _ (by decide)

/-- C4: in a rebuilt paragraph every written run is non-empty (empty
pieces are discarded), and a run is highlighted exactly when its text is
string-equal to one of the clauses present in that paragraph. -/
theorem apply_highlights_pieces_spec (p : Paragraph) (found_clauses : List String)
    (h : clausesInPara found_clauses p.text ≠ []) :
    ∀ r ∈ (_apply_highlights_to_paragraph p found_clauses).runs,
      r.text ≠ [] ∧
        (r.highlight = true ↔ ∃ c ∈ clausesInPara found_clauses p.text, c.data = r.text) := by
  unfold _apply_highlights_to_paragraph
  have hne : (clausesInPara found_clauses p.text).isEmpty = false := by
    simpa [List.isEmpty_iff] using h
  simp only [hne, Bool.false_eq_true, if_neg, not_false_iff]
  intro r hr
  rw [List.mem_map] at hr
  obtain ⟨part, hpart, rfl⟩ := hr
  rw [List.mem_filter] at hpart
  refine ⟨by simpa [List.isEmpty_iff] using hpart.2, ?_⟩
  show (clausesInPara found_clauses p.text).any (fun c => c.data == part) = true ↔ _
  rw [List.any_eq_true]
  constructor
  · rintro ⟨c, hc, hcp⟩
    exact ⟨c, hc, by simpa using hcp⟩
  · rintro ⟨c, hc, hcp⟩
    exact ⟨c, hc, by simpa using hcp⟩

/-- C4 witness: in the rebuilt paragraph `per 52.212-4 ok`, the run
carrying `52.212-4` is non-empty and highlighted because its text equals
a present clause. -/
theorem apply_highlights_pieces_spec_witness :
    (⟨"52.212-4".data, true⟩ : Run).text ≠ [] ∧
      ((⟨"52.212-4".data, true⟩ : Run).highlight = true ↔
        ∃ c ∈ clausesInPara ["52.212-4"] (Paragraph.text ⟨[⟨"per 52.212-4 ok".data, false⟩]⟩),
          c.data = (⟨"52.212-4".data, true⟩ : Run).text) :=
  apply_highlights_pieces_spec ⟨[⟨"per 52.212-4 ok".data, false⟩]⟩ ["52.212-4"]
    (by decide) ⟨"52.212-4".data, true⟩ (by decide)

/-- On a duplicate-free list of found clauses, restricting the appended
rows to one key yields exactly the master rows of that key (in master
order) when the key was found, and nothing otherwise. -/
lemma filter_flatMap_key (found_clauses : List String) (master_df : List Row) (c : String)
    (h : found_clauses.Nodup) :
    ((found_clauses.flatMap (fun cl => master_df.filter (fun r => r.clause == cl))).filter
        (fun r => r.clause == c)) =
      if c ∈ found_clauses then master_df.filter (fun r => r.clause == c) else [] := by
  induction found_clauses with
  | nil => simp
  | cons c' fs ih =>
    rw [List.nodup_cons] at h
    rw [List.flatMap_cons, List.filter_append, ih h.2]
    by_cases hcc : c = c'
    · subst hcc
      have h1 : (master_df.filter (fun r => r.clause == c)).filter
          (fun r => r.clause == c) = master_df.filter (fun r => r.clause == c) := by
        rw [List.filter_filter]
        apply List.filter_congr
        intro r hr
        simp [Bool.and_self]
      rw [h1, if_neg h.1, if_pos (List.mem_cons_self c fs), List.append_nil]
    · have h1 : (master_df.filter (fun r => r.clause == c')).filter
          (fun r => r.clause == c) = [] := by
        rw [List.filter_eq_nil_iff]
        intro r hr
        have : r.clause = c' := by simpa using (List.mem_filter.mp hr).2
        simp [this, Ne.symm hcc]
      rw [h1, List.nil_append]
      by_cases hmem : c ∈ fs
      · rw [if_pos hmem, if_pos (List.mem_cons_of_mem c' hmem)]
      · rw [if_neg hmem, if_neg (by simp [hcc, hmem])]

/-- Counting a row in a list of rows only sees the entries that carry the
row's own `Clause` key. -/
lemma count_eq_count_filter_key (r : Row) (l : List Row) :
    l.count r = (l.filter (fun x => x.clause == r.clause)).count r :=
  (List.count_filter (by simp)).symm

/-- C3 counterexample: one matched identifier, a master table listing its
FAR row before its DFARS row.  The `sort_values` contract (default
`quicksort`, unstable) admits the output listing the DFARS row first,
which differs from the collected master order — so the builder does not
guarantee preservation of the canonical table's relative order among
same-identifier duplicates. -/
theorem generate_compliance_matrix_order_not_preserved :
    generate_compliance_matrix ["52.212-4"]
        [⟨"52.212-4", ["FAR row"]⟩, ⟨"52.212-4", ["DFARS row"]⟩]
        [⟨"52.212-4", ["DFARS row"]⟩, ⟨"52.212-4", ["FAR row"]⟩] ∧
      ([⟨"52.212-4", ["DFARS row"]⟩, ⟨"52.212-4", ["FAR row"]⟩] : List Row) ≠
        matrix_rows ["52.212-4"]
          [⟨"52.212-4", ["FAR row"]⟩, ⟨"52.212-4", ["DFARS row"]⟩] := by
  refine ⟨⟨by decide, ?_⟩, by decide⟩
  refine List.pairwise_cons.mpr ⟨fun b hb => ?_, List.pairwise_singleton _ _⟩
  rcases List.mem_singleton.mp hb with rfl
  exact le_refl _

/-- C3 (amended): for a duplicate-free match set, every output the
`sort_values` contract admits is sorted ascending by the `Clause` key and
contains each master row with its master multiplicity when its identifier
was matched (duplicates across sources all retained, none deduplicated)
and not at all otherwise; the relative order among rows sharing an
identifier is whatever the unstable sort produced. -/
theorem generate_compliance_matrix_amended (found_clauses : List String)
    (master_df : List Row) (output : List Row) (hnd : found_clauses.Nodup)
    (h : generate_compliance_matrix found_clauses master_df output) :
    output.Sorted rowLe ∧
    ∀ r : Row, output.count r =
      if r.clause ∈ found_clauses then master_df.count r else 0 := by
  obtain ⟨hperm, hsorted⟩ := h
  refine ⟨hsorted, fun r => ?_⟩
  rw [hperm.count_eq r, count_eq_count_filter_key r]
  unfold matrix_rows
  rw [filter_flatMap_key found_clauses master_df r.clause hnd]
  by_cases hm : r.clause ∈ found_clauses
  · rw [if_pos hm, if_pos hm]
    exact List.count_filter (by simp)
  · rw [if_neg hm, if_neg hm, List.count_nil]

/-- C3 witness: the swapped key-sorted permutation of the two duplicate
`52.212-4` rows is an admissible output, and it still carries the DFARS
duplicate with its master multiplicity. -/
theorem generate_compliance_matrix_amended_witness :
    (["52.212-4"] : List String).Nodup ∧
      ([⟨"52.212-4", ["DFARS row"]⟩, ⟨"52.212-4", ["FAR row"]⟩] : List Row).count
          ⟨"52.212-4", ["DFARS row"]⟩ =
        (if (⟨"52.212-4", ["DFARS row"]⟩ : Row).clause ∈ (["52.212-4"] : List String) then
          ([⟨"52.212-4", ["FAR row"]⟩, ⟨"52.219-6", ["FAR row"]⟩,
            ⟨"52.212-4", ["DFARS row"]⟩] : List Row).count ⟨"52.212-4", ["DFARS row"]⟩
        else 0) :=
  ⟨by decide,
   (generate_compliance_matrix_amended ["52.212-4"]
      [⟨"52.212-4", ["FAR row"]⟩, ⟨"52.219-6", ["FAR row"]⟩, ⟨"52.212-4", ["DFARS row"]⟩]
      [⟨"52.212-4", ["DFARS row"]⟩, ⟨"52.212-4", ["FAR row"]⟩]
      (by decide)
      ⟨by decide,
       List.pairwise_cons.mpr ⟨fun b hb => by
          rcases List.mem_singleton.mp hb with rfl
          exact le_refl _,
        List.pairwise_singleton _ _⟩⟩).2 ⟨"52.212-4", ["DFARS row"]⟩⟩

/-- C6: a row of a usable source is admitted exactly when its `Clause`
cell, after trimming surrounding whitespace, contains at least one digit
and is strictly shorter than 30 characters. -/
theorem admission_filter_spec (rows : List Row) (r : Row) (h : r ∈ rows) :
    ({ r with clause := String.mk (pyStrip r.clause.data) } ∈ admitRows rows ↔
      ((pyStrip r.clause.data).any Char.isDigit = true ∧
        (pyStrip r.clause.data).length < 30)) := by
  unfold admitRows
  rw [List.mem_filter, List.mem_filter, List.mem_map]
  constructor
  · rintro ⟨⟨-, hdig⟩, hlen⟩
    exact ⟨hdig, by simpa using hlen⟩
  · rintro ⟨hdig, hlen⟩
    exact ⟨⟨⟨r, h, rfl⟩, hdig⟩, by simpa using hlen⟩

/-- C6 witness: `52.212-4` (8 characters, has digits) is retained; a
40-character narrative string is rejected. -/
theorem admission_filter_spec_witness :
    ({ clause := String.mk (pyStrip ("52.212-4" : String).data), rest := ["FAR row"] } : Row) ∈
        admitRows [⟨"52.212-4", ["FAR row"]⟩,
          ⟨String.mk (List.replicate 40 'n'), ["FAR row"]⟩] ∧
      ({ clause := String.mk (pyStrip (String.mk (List.replicate 40 'n')).data),
          rest := ["FAR row"] } : Row) ∉
        admitRows [⟨"52.212-4", ["FAR row"]⟩,
          ⟨String.mk (List.replicate 40 'n'), ["FAR row"]⟩] :=
  ⟨(admission_filter_spec
      [⟨"52.212-4", ["FAR row"]⟩, ⟨String.mk (List.replicate 40 'n'), ["FAR row"]⟩]
      ⟨"52.212-4", ["FAR row"]⟩ (by decide)).mpr (by decide),
   fun hmem => absurd
     ((admission_filter_spec
        [⟨"52.212-4", ["FAR row"]⟩, ⟨String.mk (List.replicate 40 'n'), ["FAR row"]⟩]
        ⟨String.mk (List.replicate 40 'n'), ["FAR row"]⟩ (by decide)).mp hmem)
     (by decide)⟩

/-- A source is unusable exactly when its cleaned headers lack the
`Clause` column. -/
lemma usable_eq_false_iff (s : Source) :
    usable s = false ↔ "Clause" ∉ clean_headers s.headers := by
  simp [usable, List.contains, List.elem_eq_mem]

/-- C7: with zero usable sources the merge yields the "no database"
failure, the run exits before processing documents, and no artifact is
produced for any document list; a single source lacking the `Clause`
column is merely skipped — the merge result is that of the remaining
sources. -/
theorem load_databases_failure_spec :
    (∀ sources : List Source, (∀ s ∈ sources, "Clause" ∉ clean_headers s.headers) →
      load_databases sources = none ∧ ∀ docTexts, main_artifacts sources docTexts = []) ∧
    (∀ (s : Source) (rest : List Source), "Clause" ∉ clean_headers s.headers →
      load_databases (s :: rest) = load_databases rest) := by
  constructor
  · intro sources h
    have hflt : sources.filter usable = [] :=
      List.filter_eq_nil_iff.mpr (fun s hs => by
        simp [(usable_eq_false_iff s).mpr (h s hs)])
    have hload : load_databases sources = none := by
      rw [load_databases, hflt]
      rfl
    refine ⟨hload, fun docTexts => ?_⟩
    rw [main_artifacts, hload]
  · intro s rest h
    rw [load_databases, load_databases, List.filter_cons,
      (usable_eq_false_iff s).mpr h]
    simp

/-- C7 witness: one parsed source without a `Clause` column: the merge
fails, no artifact is produced, and prepending that source to an empty
source list does not change the merge result. -/
theorem load_databases_failure_spec_witness :
    load_databases [⟨["Title", "Status"], [⟨"52.212-4", []⟩]⟩] = none ∧
      main_artifacts [⟨["Title", "Status"], [⟨"52.212-4", []⟩]⟩] ["per 52.212-4"] = [] ∧
      load_databases [⟨["Title", "Status"], [⟨"52.212-4", []⟩]⟩] = load_databases [] :=
  ⟨(load_databases_failure_spec.1 _ (by decide)).1,
   (load_databases_failure_spec.1 _ (by decide)).2 ["per 52.212-4"],
   load_databases_failure_spec.2 ⟨["Title", "Status"], [⟨"52.212-4", []⟩]⟩ [] (by decide)⟩

/-- C8: on a freshly written (unstyled) cell, `apply_color_coding`'s
per-cell rule paints green exactly when the value reads `ok` after
trimming surrounding whitespace and lowercasing, yellow exactly for `c`,
red exactly for `remove`, and leaves any other cell untouched; the
worksheet traversal applies this rule to every data-row cell (the
`Clause` column included), skipping the header row. -/
theorem apply_color_coding_rubric :
    (∀ (header : List Cell) (rows : List (List Cell)),
      apply_color_coding (header :: rows) =
        header :: rows.map (fun row => row.map recolorCell)) ∧
    (∀ s : String,
      ((recolorCell ⟨some s, Fill.unstyled⟩).fill = Fill.green ↔
        String.mk (pyLower (pyStrip s.data)) = "ok") ∧
      ((recolorCell ⟨some s, Fill.unstyled⟩).fill = Fill.yellow ↔
        String.mk (pyLower (pyStrip s.data)) = "c") ∧
      ((recolorCell ⟨some s, Fill.unstyled⟩).fill = Fill.red ↔
        String.mk (pyLower (pyStrip s.data)) = "remove") ∧
      (String.mk (pyLower (pyStrip s.data)) ≠ "ok" →
        String.mk (pyLower (pyStrip s.data)) ≠ "c" →
          String.mk (pyLower (pyStrip s.data)) ≠ "remove" →
            recolorCell ⟨some s, Fill.unstyled⟩ = ⟨some s, Fill.unstyled⟩)) := by
  refine ⟨fun header rows => rfl, fun s => ?_⟩
  have hkey : cellKey (some s) = String.mk (pyLower (pyStrip s.data)) := by
    by_cases hs : s = ""
    · subst hs; rfl
    · simp [cellKey, hs]
  by_cases h1 : String.mk (pyLower (pyStrip s.data)) = "ok" <;>
    by_cases h2 : String.mk (pyLower (pyStrip s.data)) = "c" <;>
      by_cases h3 : String.mk (pyLower (pyStrip s.data)) = "remove" <;>
        simp_all [recolorCell, hkey]

/-- C8 witness: ` OK ` is painted green; `pending` is left untouched. -/
theorem apply_color_coding_rubric_witness :
    (recolorCell ⟨some (" OK "), Fill.unstyled⟩).fill = Fill.green ∧
      recolorCell ⟨some ("pending"), Fill.unstyled⟩ = ⟨some ("pending"), Fill.unstyled⟩ :=
  ⟨(apply_color_coding_rubric.2 (" OK ")).1.mpr (by decide),
   (apply_color_coding_rubric.2 ("pending")).2.2.2
     (by decide) (by decide) (by decide)⟩

end MatrixGenerator
